import Mathlib

/-!
Verification of PathLab (a transparent L4 impairment proxy written in Go)
against its natural-language specification.

The Go code is shallowly embedded: byte streams and Go strings become
`List Nat` (Go strings are byte strings; all data relevant here is ASCII),
Go `int` becomes `Int` where sign matters and `Nat` where the source only
ever stores lengths, fallible functions return `Option`/`Except`, and the
per-connection stateful code becomes explicit state passing.  Wall-clock
fields (`updated_at`, receipt timestamps) and I/O concurrency are outside
the embedding; no claim below depends on them.
-/

/-- A Go string / byte slice: a list of byte values. -/
abbrev GoStr := List Nat

/-- Byte values of an ASCII string literal, for readable constants. -/
def goStr (s : String) : GoStr := s.data.map Char.toNat

/-- Go `unicode.IsSpace` restricted to the ASCII whitespace occurring in
rule files: space, tab, newline, carriage return. -/
def isSpaceByte (b : Nat) : Bool := b == 32 || b == 9 || b == 10 || b == 13

/-- ASCII byte lowercasing, the byte-level content of `strings.ToLower`
on ASCII data. -/
def lowerByte (b : Nat) : Nat := if 65 ≤ b ∧ b ≤ 90 then b + 32 else b

/-- ASCII byte uppercasing, the byte-level content of `strings.ToUpper`
on ASCII data. -/
def upperByte (b : Nat) : Nat := if 97 ≤ b ∧ b ≤ 122 then b - 32 else b

/-- `listStartsWith pre l` is Go's `strings.HasPrefix l pre` /
`bytes.HasPrefix l pre`. -/
def listStartsWith : GoStr → GoStr → Bool
  | [], _ => true
  | _ :: _, [] => false
  | p :: ps, x :: xs => p == x && listStartsWith ps xs

/-- Go `bytes.Contains s sub` / `strings.Contains s sub`: does `sub`
occur contiguously anywhere in `s`? -/
def bytesContains : GoStr → GoStr → Bool
  | s, sub =>
    if listStartsWith sub s then true
    else
      match s with
      | [] => false
      | _ :: xs => bytesContains xs sub

/-- Go `strings.SplitN s sep 2`: split at the first occurrence of `sep`;
`none` when `sep` does not occur (Go then returns a single part). -/
def splitFirst (sep : GoStr) : GoStr → Option (GoStr × GoStr)
  | [] => if listStartsWith sep [] then some ([], []) else none
  | b :: rest =>
    if listStartsWith sep (b :: rest) then some ([], (b :: rest).drop sep.length)
    else (splitFirst sep rest).map (fun p => (b :: p.1, p.2))

/-- Go `strings.TrimSpace` (ASCII whitespace). -/
def trimSpace (l : GoStr) : GoStr :=
  ((l.dropWhile isSpaceByte).reverse.dropWhile isSpaceByte).reverse

/-- The scanning loop of Go `strings.Fields`: `acc` is the current word,
reversed.  Whitespace closes the word; the end closes the last one. -/
def fieldsAux : GoStr → GoStr → List GoStr
  | [], acc => if acc = [] then [] else [acc.reverse]
  | b :: rest, acc =>
    if isSpaceByte b then
      if acc = [] then fieldsAux rest [] else acc.reverse :: fieldsAux rest []
    else fieldsAux rest (b :: acc)

/-- Go `strings.Fields`: the maximal runs of non-whitespace bytes. -/
def fieldsSplit (l : GoStr) : List GoStr := fieldsAux l []

namespace tlsinspect

/-- `tlsinspect.Result`: parsed information about the ClientHello.
Field names and meanings follow the Go struct. -/
structure Result where
  HandshakeBytes : Nat
  RecordsBytes   : Nat
  PQCHint        : Bool
  ClientHelloLen : Nat
  SNI            : GoStr
  ALPN           : List GoStr
  CipherSuites   : Nat
  JA3            : GoStr
deriving Repr, DecidableEq

/-- The zero value of `Result`, as Go initialises it. -/
def zeroResult : Result :=
  { HandshakeBytes := 0, RecordsBytes := 0, PQCHint := false,
    ClientHelloLen := 0, SNI := [], ALPN := [], CipherSuites := 0, JA3 := [] }

/-- The record-reassembly loop of `ParseClientHello` (source lines 34-77).
The reader is the byte list `input`; `io.ReadFull` of `n` bytes succeeds
exactly when `n` bytes remain.  State threaded through the loop: `buf`
(the handshake buffer), `total` (`totalRecordsBytes`), `need`
(`-1` in Go becomes `none`), `chl` (`res.ClientHelloLen`).  `fuel` only
bounds the iteration count for structural recursion: every iteration
consumes at least 6 input bytes, so `input.length + 1` iterations (the
caller's fuel) are never exhausted before the loop returns.
On success returns `(raw, ClientHelloLen, totalRecordsBytes)`. -/
def parseLoop : Nat → List Nat → List Nat → Nat → Option Nat → Nat →
    Option (List Nat × Nat × Nat)
  | 0, _, _, _, _, _ => none
  | fuel + 1, input, buf, total, need, chl =>
    match input with
    | ct :: _v1 :: _v2 :: l1 :: l2 :: rest =>
      let len := l1 * 256 + l2
      if len = 0 ∨ 16384 + 256 < len then none
      else if rest.length < len then none
      else
        let total' := total + 5 + len
        if ct ≠ 0x16 then none
        else
          let buf' := buf ++ rest.take len
          match need with
          | some nd =>
            if nd ≤ buf'.length then some (buf'.take nd, chl, total')
            else parseLoop fuel (rest.drop len) buf' total' (some nd) chl
          | none =>
            if 4 ≤ buf'.length then
              if buf'.getD 0 0 ≠ 0x01 then none
              else
                let hl := buf'.getD 1 0 * 65536 + buf'.getD 2 0 * 256 + buf'.getD 3 0
                if hl + 4 ≤ buf'.length then some (buf'.take (hl + 4), hl, total')
                else parseLoop fuel (rest.drop len) buf' total' (some (hl + 4)) hl
            else parseLoop fuel (rest.drop len) buf' total' none chl
    | _ => none

/-- `tlsinspect.ParseClientHello` over a byte-list reader.  Covers the
record reassembly, the PQC-hint scan and the `HandshakeBytes` /
`RecordsBytes` / `ClientHelloLen` assignments (source lines 30-84).  The
best-effort deeper metadata pass (source lines 86-214) only fills `SNI`,
`ALPN`, `CipherSuites` and `JA3` and never fails nor changes the other
fields; it is left at the zero values here since no claim concerns it. -/
def ParseClientHello (input : List Nat) : Option (List Nat × Result) :=
  match parseLoop (input.length + 1) input [] 0 none 0 with
  | none => none
  | some (raw, chl, total) =>
    some (raw,
      { zeroResult with
        PQCHint := bytesContains raw [0x11, 0xec],
        HandshakeBytes := raw.length,
        RecordsBytes := total,
        ClientHelloLen := chl })

/-- `tlsinspect.isGrease` (source lines 220-232): the pattern check
(`byte(v>>8) == byte(v&0xff) && byte(v&0xff) == 0x0a`) followed by the
explicit RFC 8701 list. -/
def isGrease (v : Nat) : Bool :=
  if (v >>> 8) % 256 = v % 256 ∧ v % 256 = 0x0a then true
  else if v = 0x0a0a ∨ v = 0x1a1a ∨ v = 0x2a2a ∨ v = 0x3a3a ∨ v = 0x4a4a ∨
          v = 0x5a5a ∨ v = 0x6a6a ∨ v = 0x7a7a ∨ v = 0x8a8a ∨ v = 0x9a9a ∨
          v = 0xaaaa ∨ v = 0xbaba ∨ v = 0xcaca ∨ v = 0xdada ∨ v = 0xeaea ∨
          v = 0xfafa then true
  else false

end tlsinspect

namespace quicinspect

/-- `quicinspect.InitialSummary`: metadata extracted from a QUIC Initial
datagram.  Field names follow the Go struct. -/
structure InitialSummary where
  Version      : Nat
  DCIDLen      : Nat
  SCIDLen      : Nat
  TokenLen     : Nat
  DeclaredLen  : Nat
  PacketNumber : Nat
  DatagramSize : Nat
  Valid        : Bool
  Err          : GoStr
deriving Repr, DecidableEq

/-- `quicinspect.readVarint`: QUIC variable-length integer, returning
value and bytes consumed, `(0, 0)` on failure.  The two prefix bits of a
byte select 1/2/4/8-byte encodings; the `8` arm is the Go `case 3` (a
byte's prefix is at most 3). -/
def readVarint (b : List Nat) : Nat × Nat :=
  match b with
  | [] => (0, 0)
  | first :: _ =>
    let pfx := first >>> 6
    let length := if pfx = 0 then 1 else if pfx = 1 then 2 else if pfx = 2 then 4 else 8
    if b.length < length then (0, 0)
    else
      let val := ((b.take length).drop 1).foldl (fun acc x => acc * 256 + x) (first &&& 0x3f)
      (val, length)

/-- `quicinspect.ParseInitial`: parse a single UDP datagram as a QUIC
long-header Initial.  A total function; errors are encoded in `Err` and
`Valid`.  Go mutates one summary value field by field; each exit here is
that value written out in full (a field is zero when the exit comes
before its assignment).  Indexing `b[i]` under a bounds guard becomes
`List.getD`. -/
def ParseInitial (b : List Nat) : InitialSummary :=
  if b.length < 7 then
    { Version := 0, DCIDLen := 0, SCIDLen := 0, TokenLen := 0, DeclaredLen := 0,
      PacketNumber := 0, DatagramSize := b.length, Valid := false, Err := goStr "too short" }
  else
    let first := b.getD 0 0
    let pn := (first &&& 0x03) + 1
    let vers := ((b.getD 1 0 * 256 + b.getD 2 0) * 256 + b.getD 3 0) * 256 + b.getD 4 0
    let dcidLen := b.getD 5 0
    let off₁ := 6 + dcidLen
    let scidLen := b.getD off₁ 0
    let off₂ := off₁ + 1
    let off₃ := off₂ + scidLen
    let tv := readVarint (b.drop off₃)
    let off₄ := off₃ + tv.2
    let off₅ := off₄ + tv.1
    let dv := readVarint (b.drop off₅)
    if first &&& 0x80 = 0 then
      { Version := 0, DCIDLen := 0, SCIDLen := 0, TokenLen := 0, DeclaredLen := 0,
        PacketNumber := 0, DatagramSize := b.length, Valid := false,
        Err := goStr "not long header" }
    else if b.length < 6 + dcidLen + 1 then
      { Version := vers, DCIDLen := 0, SCIDLen := 0, TokenLen := 0, DeclaredLen := 0,
        PacketNumber := pn, DatagramSize := b.length, Valid := false,
        Err := goStr "trunc dcid" }
    else if b.length < off₂ + scidLen then
      { Version := vers, DCIDLen := dcidLen, SCIDLen := 0, TokenLen := 0, DeclaredLen := 0,
        PacketNumber := pn, DatagramSize := b.length, Valid := false,
        Err := goStr "trunc scid" }
    else if b.length ≤ off₃ then
      { Version := vers, DCIDLen := dcidLen, SCIDLen := scidLen, TokenLen := 0,
        DeclaredLen := 0, PacketNumber := pn, DatagramSize := b.length, Valid := false,
        Err := goStr "trunc token len" }
    else if tv.2 = 0 then
      { Version := vers, DCIDLen := dcidLen, SCIDLen := scidLen, TokenLen := 0,
        DeclaredLen := 0, PacketNumber := pn, DatagramSize := b.length, Valid := false,
        Err := goStr "bad token varint" }
    else if b.length < off₄ + tv.1 then
      { Version := vers, DCIDLen := dcidLen, SCIDLen := scidLen, TokenLen := 0,
        DeclaredLen := 0, PacketNumber := pn, DatagramSize := b.length, Valid := false,
        Err := goStr "trunc token" }
    else if b.length ≤ off₅ then
      { Version := vers, DCIDLen := dcidLen, SCIDLen := scidLen, TokenLen := tv.1,
        DeclaredLen := 0, PacketNumber := pn, DatagramSize := b.length, Valid := false,
        Err := goStr "trunc length" }
    else if dv.2 = 0 then
      { Version := vers, DCIDLen := dcidLen, SCIDLen := scidLen, TokenLen := tv.1,
        DeclaredLen := 0, PacketNumber := pn, DatagramSize := b.length, Valid := false,
        Err := goStr "bad length varint" }
    else
      { Version := vers, DCIDLen := dcidLen, SCIDLen := scidLen, TokenLen := tv.1,
        DeclaredLen := dv.1, PacketNumber := pn, DatagramSize := b.length, Valid := true,
        Err := [] }

end quicinspect

namespace impair

/-- `impair.Config`: the impairment configuration.  Go `int` fields are
`Int` (the `BlackholeSeconds <= 0` default check is signed); the
`UpdatedAt` wall-clock stamp is outside the embedding. -/
structure Config where
  Profile           : GoStr
  ThresholdBytes    : Int
  LatencyMs         : Int
  JitterMs          : Int
  BandwidthKbps     : Int
  BandwidthDownKbps : Int
  BlackholeSeconds  : Int
  Notes             : GoStr
deriving Repr, DecidableEq

def ProfileClean : GoStr := goStr "CLEAN"
def ProfileAbortAfterCH : GoStr := goStr "ABORT_AFTER_CH"
def ProfileMTUBlackhole : GoStr := goStr "MTU1300_BLACKHOLE"
def ProfileLatencyJitter : GoStr := goStr "LATENCY_50MS_JITTER_10"
def ProfileBandwidthLimit : GoStr := goStr "BANDWIDTH_1MBPS"

/-- The zero value of `Config`. -/
def zeroConfig : Config :=
  { Profile := [], ThresholdBytes := 0, LatencyMs := 0, JitterMs := 0,
    BandwidthKbps := 0, BandwidthDownKbps := 0, BlackholeSeconds := 0, Notes := [] }

/-- `impair.State.Apply` (source lines 35-65): the value stored into
`s.curr`, i.e. the incoming config after default normalisation.  Go
mutates `cfg` field by field under independent conditions; the stored
value is written here as one record (`prof` is the profile after the
empty-profile default, which the later profile tests observe).  The
`UpdatedAt := time.Now()` stamp is not modelled. -/
def Apply (cfg : Config) : Config :=
  let prof := if cfg.Profile = [] then ProfileClean else cfg.Profile
  { cfg with
    Profile := prof,
    ThresholdBytes := if cfg.ThresholdBytes = 0 then 1300 else cfg.ThresholdBytes,
    LatencyMs :=
      if prof = ProfileLatencyJitter ∧ cfg.LatencyMs = 0 then 50 else cfg.LatencyMs,
    JitterMs :=
      if prof = ProfileLatencyJitter ∧ cfg.JitterMs = 0 then 10 else cfg.JitterMs,
    BandwidthKbps :=
      if prof = ProfileBandwidthLimit ∧ cfg.BandwidthKbps = 0 then 1000
      else cfg.BandwidthKbps,
    BlackholeSeconds :=
      if cfg.BlackholeSeconds ≤ 0 then 30 else cfg.BlackholeSeconds }

/-- `impair.State.Get` / `impair.State.Snapshot`: a copy of the stored
config (the RW-mutex is the concurrency discipline, not modelled). -/
def Snapshot (curr : Config) : Config := curr

end impair

namespace rules

open tlsinspect in
/-- `rules.Rule`: a parsed rule line. -/
structure Rule where
  Raw       : GoStr
  Predicate : Result → Bool
  Profile   : GoStr

/-- `rules.Set` (renamed: `Set` is taken by Mathlib): an ordered ruleset. -/
structure RuleSet where
  Rules : List Rule

/-- Go `strconv.ParseBool` (error text abbreviated; only the shape is
used). -/
def parseBool (v : GoStr) : Except GoStr Bool :=
  if v = goStr "1" ∨ v = goStr "t" ∨ v = goStr "T" ∨ v = goStr "TRUE" ∨
     v = goStr "true" ∨ v = goStr "True" then .ok true
  else if v = goStr "0" ∨ v = goStr "f" ∨ v = goStr "F" ∨ v = goStr "FALSE" ∨
     v = goStr "false" ∨ v = goStr "False" then .ok false
  else .error (goStr "bad bool syntax")

def isHexDigit (b : Nat) : Bool :=
  (48 ≤ b && b ≤ 57) || (97 ≤ b && b ≤ 102) || (65 ≤ b && b ≤ 70)

def hexDigitVal (b : Nat) : Nat :=
  if b ≤ 57 then b - 48 else if b ≤ 70 then b - 55 else b - 87

def isDigit (b : Nat) : Bool := 48 ≤ b && b ≤ 57

/-- `rules.parseInt`: `0x`-prefixed hex decodes via `hex.DecodeString`
(even digit count required) and folds the bytes MSB-first — for an even
digit string that equals the base-16 digit fold used here; otherwise
`strconv.Atoi` (optional sign, a non-empty digit string; the int64 range
check is not modelled, values here are small; error text abbreviated). -/
def parseInt (v : GoStr) : Except GoStr Int :=
  if listStartsWith (goStr "0x") v then
    let h := v.drop 2
    if h.length % 2 = 1 ∨ ¬ (h.all isHexDigit) then .error (goStr "bad hex")
    else .ok (Int.ofNat (h.foldl (fun acc d => acc * 16 + hexDigitVal d) 0))
  else
    match v with
    | [] => .error (goStr "bad int syntax")
    | c :: cs =>
      let signed : Bool × GoStr :=
        if c = 45 then (true, cs) else if c = 43 then (false, cs) else (false, v)
      if signed.2 = [] ∨ ¬ (signed.2.all isDigit) then .error (goStr "bad int syntax")
      else
        let n : Int := Int.ofNat (signed.2.foldl (fun acc d => acc * 10 + (d - 48)) 0)
        .ok (if signed.1 then -n else n)

open tlsinspect in
/-- The field/operator switch of `rules.parseLine` (the `switch field`
statement): builds the rule from the already-split condition tokens.
`line` and `prof` come in for `Rule.Raw` / `Rule.Profile`. -/
def parseCond (line prof field op val : GoStr) : Except GoStr Rule :=
  if field = goStr "ch_bytes" then
    match parseInt val with
    | .error e => .error (goStr "bad int: " ++ e)
    | .ok n =>
      if op = goStr ">" then .ok ⟨line, fun r => decide ((r.HandshakeBytes : Int) > n), prof⟩
      else if op = goStr ">=" then .ok ⟨line, fun r => decide ((r.HandshakeBytes : Int) ≥ n), prof⟩
      else if op = goStr "<" then .ok ⟨line, fun r => decide ((r.HandshakeBytes : Int) < n), prof⟩
      else if op = goStr "<=" then .ok ⟨line, fun r => decide ((r.HandshakeBytes : Int) ≤ n), prof⟩
      else if op = goStr "==" then .ok ⟨line, fun r => decide ((r.HandshakeBytes : Int) = n), prof⟩
      else .error (goStr "unsupported operator " ++ op)
  else if field = goStr "pqc_hint" then
    match parseBool val with
    | .error e => .error (goStr "bad bool: " ++ e)
    | .ok b =>
      if op = goStr "==" then .ok ⟨line, fun r => r.PQCHint == b, prof⟩
      else .error (goStr "unsupported operator for pqc_hint: " ++ op)
  else if field = goStr "cipher_count" then
    match parseInt val with
    | .error e => .error (goStr "bad int: " ++ e)
    | .ok n =>
      if op = goStr ">" then .ok ⟨line, fun r => decide ((r.CipherSuites : Int) > n), prof⟩
      else if op = goStr ">=" then .ok ⟨line, fun r => decide ((r.CipherSuites : Int) ≥ n), prof⟩
      else if op = goStr "<" then .ok ⟨line, fun r => decide ((r.CipherSuites : Int) < n), prof⟩
      else if op = goStr "<=" then .ok ⟨line, fun r => decide ((r.CipherSuites : Int) ≤ n), prof⟩
      else if op = goStr "==" then .ok ⟨line, fun r => decide ((r.CipherSuites : Int) = n), prof⟩
      else .error (goStr "unsupported operator " ++ op)
  else if field = goStr "ja3" then
    if op ≠ goStr "==" then .error (goStr "ja3 only supports == operator")
    else
      let hexv := val.map lowerByte
      if hexv.length ≠ 32 then .error (goStr "expected 32 hex chars for ja3")
      else if ¬ hexv.all (fun c => (48 ≤ c && c ≤ 57) || (97 ≤ c && c ≤ 102)) then
        .error (goStr "invalid hex in ja3")
      else .ok ⟨line, fun r => r.JA3 == hexv, prof⟩
  else if field = goStr "sni_contains" then
    if val = [] then .error (goStr "empty substring")
    else
      let needle := val.map lowerByte
      .ok ⟨line, fun r => !(r.SNI == []) && bytesContains (r.SNI.map lowerByte) needle, prof⟩
  else if field = goStr "alpn_contains" then
    if val = [] then .error (goStr "empty alpn token")
    else
      let needle := val.map lowerByte
      .ok ⟨line, fun r => r.ALPN.any (fun p => p.map lowerByte == needle), prof⟩
  else .error (goStr "unsupported field " ++ field)

/-- `rules.parseLine`: lowercase the line, require `when `, split at the
first ` then `, uppercase the action as the profile (any non-empty token
is accepted), then dispatch on the condition's whitespace fields (3 tokens
`field op value`, 2 tokens `field value` with the `contains` op). -/
def parseLine (line : GoStr) : Except GoStr Rule :=
  let lower := line.map lowerByte
  if ¬ listStartsWith (goStr "when ") lower then .error (goStr "missing 'when'")
  else
    match splitFirst (goStr " then ") (lower.drop 5) with
    | none => .error (goStr "missing 'then'")
    | some parts =>
      let cond := trimSpace parts.1
      let action := trimSpace parts.2
      let prof := action.map upperByte
      if prof = [] then .error (goStr "invalid profile")
      else
        match fieldsSplit cond with
        | [f, o, v] => parseCond line prof f o v
        | [f, v] => parseCond line prof f (goStr "contains") v
        | _ => .error (goStr "invalid condition format")

/-- The scanner loop of `rules.Parse`, carrying `lineNo` (lines already
consumed; the current line is `lineNo + 1`).  A parse error carries the
1-based line number, as `fmt.Errorf("line %d: %w", ...)` does. -/
def parseFrom : List GoStr → Nat → Except (Nat × GoStr) (List Rule)
  | [], _ => .ok []
  | l :: rest, lineNo =>
    let n := lineNo + 1
    let line := trimSpace l
    if line = [] ∨ listStartsWith (goStr "#") line then parseFrom rest n
    else
      match parseLine line with
      | .error e => .error (n, e)
      | .ok rw =>
        match parseFrom rest n with
        | .error e => .error e
        | .ok rs => .ok (rw :: rs)

/-- `rules.Parse`: parse a rules file given as its list of lines.  On any
line failure the whole load is rejected and no rules are returned. -/
def Parse (lines : List GoStr) : Except (Nat × GoStr) RuleSet :=
  match parseFrom lines 0 with
  | .error e => .error e
  | .ok rs => .ok ⟨rs⟩

open tlsinspect in
/-- The loop of `rules.Set.Match`. -/
def matchList : List Rule → Result → GoStr × Bool
  | [], _ => ([], false)
  | r :: rest, res => if r.Predicate res then (r.Profile, true) else matchList rest res

open tlsinspect in
/-- `rules.Set.Match`: first profile whose predicate returns true, else
the empty sentinel `("", false)`. -/
def Match (s : RuleSet) (res : Result) : GoStr × Bool := matchList s.Rules res

/-- Whether a body line makes `Parse` fail: it survives the blank/comment
skip and `parseLine` rejects it. -/
def lineFails (l : GoStr) : Bool :=
  let line := trimSpace l
  if line = [] ∨ listStartsWith (goStr "#") line then false
  else
    match parseLine line with
    | .error _ => true
    | .ok _ => false

end rules

namespace proxy

/-- The shaping strategies `proxy.HandleConnection` can dispatch to. -/
inductive Strategy where
  | abortAfterCH
  | mtuBlackhole
  | latencyJitter
  | bandwidthLimit
  | cleanPassthrough
deriving Repr, DecidableEq

/-- The `switch cfg.Profile` dispatch of `proxy.HandleConnection`
(source lines 104-116): any profile outside the four named ones falls to
the default clean passthrough handler. -/
def HandleConnection (profile : GoStr) : Strategy :=
  if profile = impair.ProfileAbortAfterCH then .abortAfterCH
  else if profile = impair.ProfileMTUBlackhole then .mtuBlackhole
  else if profile = impair.ProfileLatencyJitter then .latencyJitter
  else if profile = impair.ProfileBandwidthLimit then .bandwidthLimit
  else .cleanPassthrough

end proxy

namespace pathlab

/-- `receipts.Receipt` as built in `cmd/pathlab/main.go` (the wall-clock
`Timestamp` and the manager-assigned `Hash`/`Sig` are outside the
embedding). -/
structure Receipt where
  ConnID         : Int
  ClientAddr     : GoStr
  UpstreamAddr   : GoStr
  AppliedProfile : GoStr
  GlobalProfile  : GoStr
  RuleMatched    : GoStr
  HandshakeBytes : Nat
  CipherCount    : Nat
  PQCHint        : Bool
  SNI            : GoStr
  ALPN           : List GoStr
  JA3            : GoStr
  Outcome        : GoStr
  Error          : GoStr
deriving Repr, DecidableEq

/-- The `chosen` profile of the accept loop (main.go lines 270-277):
the global profile, overridden by the first matching rule when the
ClientHello parse succeeded (`parsed = some res`). -/
def chooseProfile (baseProfile : GoStr) (set : rules.RuleSet)
    (parsed : Option tlsinspect.Result) : GoStr :=
  match parsed with
  | none => baseProfile
  | some res =>
    let m := rules.Match set res
    if m.2 then m.1 else baseProfile

/-- The receipt built at connection teardown (main.go lines 289-315).
`handlerErr` is `proxy.HandleConnection`'s error return; `parsed` is
`some res` exactly when the ClientHello parse succeeded (on failure `res`
is the zero `Result`, as in Go). -/
def connectionReceipt (id : Int) (baseCfg : impair.Config) (set : rules.RuleSet)
    (clientAddr upstreamAddr : GoStr) (parsed : Option tlsinspect.Result)
    (handlerErr : Option GoStr) : Receipt :=
  let res := parsed.getD tlsinspect.zeroResult
  let chosen := chooseProfile baseCfg.Profile set parsed
  { ConnID := id, ClientAddr := clientAddr, UpstreamAddr := upstreamAddr,
    AppliedProfile := chosen, GlobalProfile := baseCfg.Profile,
    RuleMatched := chosen,
    HandshakeBytes := res.HandshakeBytes, CipherCount := res.CipherSuites,
    PQCHint := res.PQCHint, SNI := res.SNI, ALPN := res.ALPN, JA3 := res.JA3,
    Outcome := if handlerErr.isSome then goStr "error" else goStr "closed",
    Error := handlerErr.getD [] }

/-- The `POST /rules` handler (main.go lines 198-206): the stored ruleset
is swapped only when `rules.Parse` succeeds; on error the old set stays
and the error is returned with status 400. -/
def rulesPostHandler (stored : rules.RuleSet) (body : List GoStr) :
    rules.RuleSet × Except (Nat × GoStr) Nat :=
  match rules.Parse body with
  | .error e => (stored, .error e)
  | .ok set => (set, .ok set.Rules.length)

end pathlab

/-! Helper lemmas. -/

/-- `listStartsWith pre l` holds exactly when `l` extends `pre`. -/
theorem listStartsWith_iff : ∀ (pre l : GoStr), listStartsWith pre l = true ↔ ∃ tail, l = pre ++ tail := by
  intro pre
  induction pre with
  | nil => intro l; simp [listStartsWith]
  | cons p ps ih =>
    intro l
    cases l with
    | nil => simp [listStartsWith]
    | cons x xs =>
      rw [listStartsWith]
      simp only [Bool.and_eq_true, beq_iff_eq, ih]
      constructor
      · rintro ⟨hpx, tail, htail⟩
        exact ⟨tail, by simp [hpx, htail]⟩
      · rintro ⟨tail, htail⟩
        injection htail with h1 h2
        exact ⟨h1.symm, tail, h2⟩

/-- `bytesContains s sub` holds exactly when `sub` occurs contiguously in `s`. -/
theorem bytesContains_iff (sub : GoStr) : ∀ s, bytesContains s sub = true ↔ ∃ u v, s = u ++ sub ++ v := by
  intro s
  induction s with
  | nil =>
    rw [bytesContains]
    split_ifs with h
    · obtain ⟨tail, htail⟩ := (listStartsWith_iff sub []).mp h
      have hs : sub = [] := (List.append_eq_nil.mp htail.symm).1
      exact iff_of_true rfl ⟨[], [], by simp [hs]⟩
    · refine iff_of_false (by simp) ?_
      rintro ⟨u, v, huv⟩
      have hu := List.append_eq_nil.mp huv.symm
      have hs := (List.append_eq_nil.mp hu.1).2
      exact h ((listStartsWith_iff sub []).mpr ⟨[], by simp [hs]⟩)
  | cons x xs ih =>
    rw [bytesContains]
    split_ifs with h
    · obtain ⟨tail, htail⟩ := (listStartsWith_iff sub (x :: xs)).mp h
      exact iff_of_true rfl ⟨[], tail, by simp [htail]⟩
    · rw [ih]
      constructor
      · rintro ⟨u, v, huv⟩
        exact ⟨x :: u, v, by simp [huv]⟩
      · rintro ⟨u, v, huv⟩
        cases u with
        | nil =>
          simp only [List.nil_append] at huv
          exact absurd ((listStartsWith_iff sub (x :: xs)).mpr ⟨v, huv⟩) h
        | cons u0 us =>
          injection huv with h1 h2
          exact ⟨us, v, h2⟩

/-- Invariant of the ClientHello record loop: a successful run returns a
raw buffer of exactly `ClientHelloLen + 4` bytes, and a records total
that exceeds it by at least one 5-byte record header. -/
theorem parseLoop_spec : ∀ (fuel : Nat) (input buf : List Nat) (total : Nat)
    (need : Option Nat) (chl : Nat) (raw : List Nat) (c t : Nat),
    tlsinspect.parseLoop fuel input buf total need chl = some (raw, c, t) →
    (∀ nd, need = some nd → nd = chl + 4) →
    buf.length ≤ total →
    raw.length = c + 4 ∧ raw.length + 5 ≤ t := by
  intro fuel
  induction fuel with
  | zero =>
    intro input buf total need chl raw c t hp hneed hbt
    simp [tlsinspect.parseLoop] at hp
  | succ fuel ih =>
    intro input buf total need chl raw c t hp hneed hbt
    match input with
    | [] => simp [tlsinspect.parseLoop] at hp
    | [a] => simp [tlsinspect.parseLoop] at hp
    | [a, b] => simp [tlsinspect.parseLoop] at hp
    | [a, b, d] => simp [tlsinspect.parseLoop] at hp
    | [a, b, d, e] => simp [tlsinspect.parseLoop] at hp
    | ct :: v1 :: v2 :: l1 :: l2 :: rest =>
      rw [tlsinspect.parseLoop] at hp
      dsimp only at hp
      set len := l1 * 256 + l2 with hlendef
      set buf' := buf ++ rest.take len with hbufdef
      by_cases h1 : len = 0 ∨ 16384 + 256 < len
      · rw [if_pos h1] at hp; cases hp
      rw [if_neg h1] at hp
      by_cases h2 : rest.length < len
      · rw [if_pos h2] at hp; cases hp
      rw [if_neg h2] at hp
      by_cases h3 : ct ≠ 0x16
      · rw [if_pos h3] at hp; cases hp
      rw [if_neg h3] at hp
      have hblen : buf'.length = buf.length + len := by
        simp [hbufdef, List.length_append, List.length_take]
        omega
      cases need with
      | some nd =>
        have hnd : nd = chl + 4 := hneed nd rfl
        try dsimp only at hp
        by_cases h4 : nd ≤ buf'.length
        · rw [if_pos h4] at hp
          simp only [Option.some.injEq, Prod.mk.injEq] at hp
          obtain ⟨hraw, hc, ht⟩ := hp
          subst hraw hc ht
          rw [List.length_take, Nat.min_eq_left h4]
          omega
        · rw [if_neg h4] at hp
          exact ih _ _ _ _ _ _ _ _ hp
            (fun nd' hnd' => by injection hnd' with h; omega)
            (by omega)
      | none =>
        try dsimp only at hp
        by_cases h4 : 4 ≤ buf'.length
        · rw [if_pos h4] at hp
          by_cases h5 : buf'.getD 0 0 ≠ 0x01
          · rw [if_pos h5] at hp; cases hp
          rw [if_neg h5] at hp
          try dsimp only at hp
          set hl := buf'.getD 1 0 * 65536 + buf'.getD 2 0 * 256 + buf'.getD 3 0 with hhl
          by_cases h6 : hl + 4 ≤ buf'.length
          · rw [if_pos h6] at hp
            simp only [Option.some.injEq, Prod.mk.injEq] at hp
            obtain ⟨hraw, hc, ht⟩ := hp
            subst hraw hc ht
            rw [List.length_take, Nat.min_eq_left h6]
            omega
          · rw [if_neg h6] at hp
            exact ih _ _ _ _ _ _ _ _ hp
              (fun nd' hnd' => by injection hnd' with h; omega)
              (by omega)
        · rw [if_neg h4] at hp
          exact ih _ _ _ _ _ _ _ _ hp
            (fun nd' hnd' => by cases hnd')
            (by omega)

/-! The claims. -/

/-- C6 (confirmed): for every input on which `ParseClientHello` succeeds,
the emitted result satisfies `HandshakeBytes = ClientHelloLen + 4` and
`HandshakeBytes ≥ 4`, `ClientHelloLen` being the 3-byte big-endian length
from the handshake header. -/
theorem C6_handshake_len (input raw : List Nat) (res : tlsinspect.Result)
    (h : tlsinspect.ParseClientHello input = some (raw, res)) :
    res.HandshakeBytes = res.ClientHelloLen + 4 ∧ 4 ≤ res.HandshakeBytes := by
  unfold tlsinspect.ParseClientHello at h
  cases hp : tlsinspect.parseLoop (input.length + 1) input [] 0 none 0 with
  | none => rw [hp] at h; cases h
  | some out =>
    obtain ⟨r, c, t⟩ := out
    rw [hp] at h
    simp only [Option.some.injEq, Prod.mk.injEq] at h
    obtain ⟨hraw, hres⟩ := h
    have hspec := parseLoop_spec (input.length + 1) input [] 0 none 0 r c t hp
      (fun nd hnd => by cases hnd) (by simp)
    subst hres
    simp only [tlsinspect.zeroResult]
    exact ⟨hspec.1, by omega⟩

/-- Witness input for C6: one record of length 47 carrying a complete
minimal ClientHello of handshake length field 43. -/
def c6input : List Nat := [0x16, 3, 1, 0, 47] ++ [1, 0, 0, 43] ++ List.replicate 43 0

def c6raw : List Nat := [1, 0, 0, 43] ++ List.replicate 43 0

def c6res : tlsinspect.Result :=
  { tlsinspect.zeroResult with HandshakeBytes := 47, RecordsBytes := 52, ClientHelloLen := 43 }

/-- C6 witness: the parse of `c6input` yields `HandshakeBytes = 47 = 43 + 4`. -/
theorem C6_handshake_len_witness :
    c6res.HandshakeBytes = c6res.ClientHelloLen + 4 ∧ 4 ≤ c6res.HandshakeBytes :=
  C6_handshake_len c6input c6raw c6res (by decide)

/-- C2 (corrected): a record may carry surplus bytes beyond the handshake
message, so `RecordsBytes - HandshakeBytes` need not be a multiple of 5;
the surviving part of the claim is `RecordsBytes ≥ HandshakeBytes + 5`. -/
theorem C2_records_ge_handshake (input raw : List Nat) (res : tlsinspect.Result)
    (h : tlsinspect.ParseClientHello input = some (raw, res)) :
    res.HandshakeBytes + 5 ≤ res.RecordsBytes := by
  unfold tlsinspect.ParseClientHello at h
  cases hp : tlsinspect.parseLoop (input.length + 1) input [] 0 none 0 with
  | none => rw [hp] at h; cases h
  | some out =>
    obtain ⟨r, c, t⟩ := out
    rw [hp] at h
    simp only [Option.some.injEq, Prod.mk.injEq] at h
    obtain ⟨hraw, hres⟩ := h
    have hspec := parseLoop_spec (input.length + 1) input [] 0 none 0 r c t hp
      (fun nd hnd => by cases hnd) (by simp)
    subst hres
    exact hspec.2

/-- Counterexample input for C2: one record of length 50 whose body is a
47-byte handshake message followed by 3 surplus bytes. -/
def c2cexInput : List Nat :=
  [0x16, 3, 1, 0, 50] ++ [1, 0, 0, 43] ++ List.replicate 43 0 ++ [9, 9, 9]

/-- C2 counterexample: at `c2cexInput` the parse succeeds with
`RecordsBytes = 55` and `HandshakeBytes = 47`; the difference 8 is not a
multiple of 5, refuting the claim as stated. -/
theorem C2_multiple_of_five_cex :
    (tlsinspect.ParseClientHello c2cexInput).map
        (fun p => (p.2.RecordsBytes, p.2.HandshakeBytes)) = some (55, 47)
    ∧ ¬ (5 ∣ (55 - 47 : Nat)) := ⟨by decide, by decide⟩

/-- Witness input for C2: a single exactly-sized record. -/
def c2witInput : List Nat := [0x16, 3, 1, 0, 10] ++ [1, 0, 0, 6] ++ List.replicate 6 0

def c2witRaw : List Nat := [1, 0, 0, 6] ++ List.replicate 6 0

def c2witRes : tlsinspect.Result :=
  { tlsinspect.zeroResult with HandshakeBytes := 10, RecordsBytes := 15, ClientHelloLen := 6 }

/-- C2 witness: at `c2witInput`, `HandshakeBytes + 5 = 15 = RecordsBytes`. -/
theorem C2_records_ge_handshake_witness :
    c2witRes.HandshakeBytes + 5 ≤ c2witRes.RecordsBytes :=
  C2_records_ge_handshake c2witInput c2witRaw c2witRes (by decide)

/-- C3 (corrected, amended): `PQCHint` is set exactly when the byte pair
`0x11 0xEC` (not `0xEC 0x11`) occurs contiguously in the assembled
handshake bytes. -/
theorem C3_pqc_hint_amended (input raw : List Nat) (res : tlsinspect.Result)
    (h : tlsinspect.ParseClientHello input = some (raw, res)) :
    (res.PQCHint = true ↔ ∃ u v, raw = u ++ [0x11, 0xec] ++ v) := by
  unfold tlsinspect.ParseClientHello at h
  cases hp : tlsinspect.parseLoop (input.length + 1) input [] 0 none 0 with
  | none => rw [hp] at h; cases h
  | some out =>
    obtain ⟨r, c, t⟩ := out
    rw [hp] at h
    simp only [Option.some.injEq, Prod.mk.injEq] at h
    obtain ⟨hraw, hres⟩ := h
    subst hres hraw
    simpa using bytesContains_iff [0x11, 0xec] r

/-- Counterexample input for C3: a complete ClientHello whose body ends
in the byte pair `0xEC 0x11`. -/
def c3cexInput : List Nat := [0x16, 3, 1, 0, 6, 1, 0, 0, 2, 0xEC, 0x11]

/-- C3 counterexample: the handshake bytes of `c3cexInput` contain the
pair `0xEC 0x11`, yet `PQCHint` is `false` — the code searches for
`0x11 0xEC`, refuting the claim as stated. -/
theorem C3_pqc_hint_cex :
    tlsinspect.ParseClientHello c3cexInput =
      some ([1, 0, 0, 2, 0xEC, 0x11],
        { tlsinspect.zeroResult with HandshakeBytes := 6, RecordsBytes := 11, ClientHelloLen := 2 })
    ∧ (∃ u v, ([1, 0, 0, 2, 0xEC, 0x11] : List Nat) = u ++ [0xEC, 0x11] ++ v) :=
  ⟨by decide, ⟨[1, 0, 0, 2], [], rfl⟩⟩

/-- Witness input for C3: a ClientHello whose body ends in `0x11 0xEC`. -/
def c3witInput : List Nat := [0x16, 3, 1, 0, 6, 1, 0, 0, 2, 0x11, 0xEC]

def c3witRaw : List Nat := [1, 0, 0, 2, 0x11, 0xEC]

def c3witRes : tlsinspect.Result :=
  { tlsinspect.zeroResult with
    HandshakeBytes := 6, RecordsBytes := 11, ClientHelloLen := 2, PQCHint := true }

/-- C3 witness: at `c3witInput` the hint is set and the pair occurs. -/
theorem C3_pqc_hint_witness :
    (c3witRes.PQCHint = true ↔ ∃ u v, c3witRaw = u ++ [0x11, 0xec] ++ v) :=
  C3_pqc_hint_amended c3witInput c3witRaw c3witRes (by decide)

/-- C4 (corrected, amended): `PacketNumber` lies in `{1, 2, 3, 4}` for
every datagram of at least 7 bytes whose first byte has the long-header
bit set; on the two early error exits (`too short`, `not long header`)
it is left at 0. -/
theorem C4_packet_number_len (b : List Nat) :
    (7 ≤ b.length ∧ b.getD 0 0 &&& 0x80 ≠ 0 →
      1 ≤ (quicinspect.ParseInitial b).PacketNumber ∧
        (quicinspect.ParseInitial b).PacketNumber ≤ 4) ∧
    (¬ (7 ≤ b.length ∧ b.getD 0 0 &&& 0x80 ≠ 0) →
      (quicinspect.ParseInitial b).PacketNumber = 0) := by
  have hb : b.getD 0 0 &&& 3 ≤ 3 := Nat.and_le_right
  constructor
  · rintro ⟨h7, hbit⟩
    unfold quicinspect.ParseInitial
    rw [if_neg (by omega)]
    dsimp only
    rw [if_neg hbit]
    split_ifs <;> dsimp only <;> omega
  · intro h
    unfold quicinspect.ParseInitial
    by_cases h7 : b.length < 7
    · rw [if_pos h7]
    · rw [if_neg h7]
      have hbit : b.getD 0 0 &&& 0x80 = 0 := by
        by_contra hc
        exact h ⟨by omega, hc⟩
      dsimp only
      rw [if_pos hbit]

/-- C4 counterexample: on the empty datagram `ParseInitial` returns a
summary whose `PacketNumber` is 0, outside `{1, 2, 3, 4}` — the claim
fails for inputs rejected before the header byte is decoded. -/
theorem C4_packet_number_len_cex :
    (quicinspect.ParseInitial ([] : List Nat)).PacketNumber = 0 ∧
    (quicinspect.ParseInitial ([] : List Nat)).PacketNumber ∉ ([1, 2, 3, 4] : List Nat) := by
  decide

/-- C5 (corrected, amended): `Apply` replaces only the empty profile by
`CLEAN`; any non-empty profile string — known or unknown — is stored
verbatim and `Snapshot` returns it unchanged. -/
theorem C5_apply_keeps_profile (cfg : impair.Config) (h : cfg.Profile ≠ []) :
    (impair.Snapshot (impair.Apply cfg)).Profile = cfg.Profile := by
  unfold impair.Apply impair.Snapshot
  simp [h]

/-- C5 counterexample: applying a config whose profile is the unknown
non-empty string `TOTALLY_BOGUS` yields a snapshot whose profile is that
same string, not `CLEAN`, refuting the claimed fallback. -/
theorem C5_unknown_profile_cex :
    (goStr "TOTALLY_BOGUS" ≠ [] ∧
      goStr "TOTALLY_BOGUS" ∉ [impair.ProfileClean, impair.ProfileAbortAfterCH,
        impair.ProfileMTUBlackhole, impair.ProfileLatencyJitter, impair.ProfileBandwidthLimit]) ∧
    (impair.Snapshot (impair.Apply
        { impair.zeroConfig with Profile := goStr "TOTALLY_BOGUS" })).Profile
      ≠ impair.ProfileClean := by
  decide

/-- C5 witness: a named non-empty profile is also stored verbatim. -/
theorem C5_apply_keeps_profile_witness :
    (impair.Snapshot (impair.Apply
        { impair.zeroConfig with Profile := impair.ProfileAbortAfterCH })).Profile
      = ({ impair.zeroConfig with Profile := impair.ProfileAbortAfterCH} : impair.Config).Profile :=
  C5_apply_keeps_profile { impair.zeroConfig with Profile := impair.ProfileAbortAfterCH }
    (by decide)

set_option maxRecDepth 2000 in
/-- The sixteen-fold byte enumeration behind C7: on doubled bytes
`257 * b`, `isGrease` agrees with the nibble mask test. -/
theorem isGrease_byte_enum : ∀ b < 256,
    (tlsinspect.isGrease (257 * b) = true ↔ (257 * b) &&& 0x0F0F = 0x0A0A) := by
  decide

/-- C7 (confirmed): for every u16 value `v`, `isGrease v` holds exactly
when `v &&& 0x0F0F = 0x0A0A` and the high byte equals the low byte —
the sixteen RFC 8701 GREASE values. -/
theorem C7_isGrease_iff (v : Nat) (hv : v < 65536) :
    tlsinspect.isGrease v = true ↔ (v &&& 0x0F0F = 0x0A0A ∧ v >>> 8 = v &&& 0xFF) := by
  have hs : v >>> 8 = v / 256 := by
    have := Nat.shiftRight_eq_div_pow v 8
    norm_num at this; exact this
  have hm : v &&& 0xFF = v % 256 := by
    have := Nat.and_pow_two_sub_one_eq_mod v 8
    norm_num at this; exact this
  by_cases hEq : v / 256 = v % 256
  · have hv' : v = 257 * (v % 256) := by omega
    have hb := isGrease_byte_enum (v % 256) (by omega)
    rw [← hv'] at hb
    rw [hb, hs, hm]
    exact ⟨fun h => ⟨h, hEq⟩, fun h => h.1⟩
  · constructor
    · intro h
      unfold tlsinspect.isGrease at h
      split_ifs at h with h1 h2
      · rw [hs] at h1
        omega
      · rcases h2 with h2|h2|h2|h2|h2|h2|h2|h2|h2|h2|h2|h2|h2|h2|h2|h2 <;> omega
    · rintro ⟨-, h2⟩
      rw [hs, hm] at h2
      exact absurd h2 hEq

/-- C7 witness: the GREASE value `0x2A2A` satisfies both sides. -/
theorem C7_isGrease_witness :
    tlsinspect.isGrease 0x2a2a = true ↔
      ((0x2a2a : Nat) &&& 0x0F0F = 0x0A0A ∧ (0x2a2a : Nat) >>> 8 = (0x2a2a : Nat) &&& 0xFF) :=
  C7_isGrease_iff 0x2a2a (by decide)

/-- C8 (confirmed): `Match` returns the profile of the first rule in
load order whose predicate holds (`List.find?` order), and the empty
sentinel `("", false)` when none does; an empty ruleset never matches. -/
theorem C8_match_first (s : rules.RuleSet) (res : tlsinspect.Result) :
    (rules.Match s res = (match s.Rules.find? (fun r => r.Predicate res) with
      | some r => (r.Profile, true)
      | none => ([], false)))
    ∧ rules.Match ⟨[]⟩ res = ([], false) := by
  constructor
  · obtain ⟨l⟩ := s
    induction l with
    | nil => rfl
    | cons r rest ih =>
      by_cases h : r.Predicate res
      · simp [rules.Match, rules.matchList, List.find?, h]
      · simp only [rules.Match, rules.matchList] at ih ⊢
        simp [List.find?, h, ih]
  · rfl

/-- Error localisation for the rules scanner: a failing `parseFrom` names
the 1-based number of the first non-skipped line `parseLine` rejects. -/
theorem parseFrom_error_spec : ∀ (lines : List GoStr) (k n : Nat) (msg : GoStr),
    rules.parseFrom lines k = .error (n, msg) →
    k + 1 ≤ n ∧ n ≤ k + lines.length ∧
    rules.lineFails (lines.getD (n - 1 - k) []) = true ∧
    (∀ j, j < n - 1 - k → rules.lineFails (lines.getD j []) = false) := by
  intro lines
  induction lines with
  | nil => intro k n msg hp; simp [rules.parseFrom] at hp
  | cons l rest ih =>
    intro k n msg hp
    rw [rules.parseFrom] at hp
    try dsimp only at hp
    by_cases hskip : trimSpace l = [] ∨ listStartsWith (goStr "#") (trimSpace l)
    · rw [if_pos hskip] at hp
      obtain ⟨h1, h2, h3, h4⟩ := ih (k + 1) n msg hp
      have hfl : rules.lineFails l = false := by
        unfold rules.lineFails
        rw [if_pos hskip]
      refine ⟨by omega, by simp; omega, ?_, ?_⟩
      · have : n - 1 - k = (n - 1 - (k + 1)) + 1 := by omega
        rw [this]
        simpa using h3
      · intro j hj
        cases j with
        | zero => simpa using hfl
        | succ j' =>
          have : j' < n - 1 - (k + 1) := by omega
          simpa using h4 j' this
    · rw [if_neg hskip] at hp
      cases hpl : rules.parseLine (trimSpace l) with
      | error e =>
        rw [hpl] at hp
        try dsimp only at hp
        injection hp with hp1
        injection hp1 with hn hmsg
        have hfl : rules.lineFails l = true := by
          unfold rules.lineFails
          rw [if_neg hskip, hpl]
        subst hn
        refine ⟨le_rfl, by simp, ?_, ?_⟩
        · simpa using hfl
        · intro j hj; omega
      | ok rw' =>
        rw [hpl] at hp
        try dsimp only at hp
        cases hrest : rules.parseFrom rest (k + 1) with
        | error e' =>
          rw [hrest] at hp
          try dsimp only at hp
          injection hp with hp1
          obtain ⟨h1, h2, h3, h4⟩ := ih (k + 1) n msg (by rw [hrest, hp1])
          have hfl : rules.lineFails l = false := by
            unfold rules.lineFails
            rw [if_neg hskip, hpl]
          refine ⟨by omega, by simp; omega, ?_, ?_⟩
          · have : n - 1 - k = (n - 1 - (k + 1)) + 1 := by omega
            rw [this]
            simpa using h3
          · intro j hj
            cases j with
            | zero => simpa using hfl
            | succ j' =>
              have : j' < n - 1 - (k + 1) := by omega
              simpa using h4 j' this
        | ok rs =>
          rw [hrest] at hp
          try dsimp only at hp
          cases hp

/-- C9 (confirmed): when any body line fails to parse, the whole load is
rejected: `Parse` returns only an error carrying the 1-based number of
the first failing line (every earlier line is blank, a comment or
well-formed), and the `POST /rules` handler keeps the previously stored
ruleset. -/
theorem C9_parse_error_line (stored : rules.RuleSet) (body : List GoStr) (n : Nat) (msg : GoStr)
    (h : rules.Parse body = .error (n, msg)) :
    pathlab.rulesPostHandler stored body = (stored, .error (n, msg)) ∧
    1 ≤ n ∧ n ≤ body.length ∧
    rules.lineFails (body.getD (n - 1) []) = true ∧
    (∀ j, j < n - 1 → rules.lineFails (body.getD j []) = false) := by
  have hpf : rules.parseFrom body 0 = .error (n, msg) := by
    unfold rules.Parse at h
    cases hp : rules.parseFrom body 0 with
    | error e => rw [hp] at h; injection h with h1; rw [h1]
    | ok rs => rw [hp] at h; cases h
  obtain ⟨h1, h2, h3, h4⟩ := parseFrom_error_spec body 0 n msg hpf
  refine ⟨?_, by omega, by omega, by simpa using h3,
    fun j hj => by simpa using h4 j (by omega)⟩
  unfold pathlab.rulesPostHandler
  rw [h]

/-- A previously loaded ruleset, for the C9 witness. -/
def c9stored : rules.RuleSet :=
  ⟨[{ Raw := goStr "when ch_bytes > 1 then CLEAN", Predicate := fun _ => true,
      Profile := goStr "CLEAN" }]⟩

/-- A rules body whose third line is the first to fail. -/
def c9body : List GoStr :=
  [goStr "# comment", goStr "when ch_bytes > 10 then ABORT_AFTER_CH",
   goStr "when bogus_field == 3 then CLEAN"]

def c9msg : GoStr := goStr "unsupported field " ++ goStr "bogus_field"

/-- C9 witness: loading `c9body` fails at line 3 and keeps `c9stored`. -/
theorem C9_parse_error_line_witness :
    pathlab.rulesPostHandler c9stored c9body = (c9stored, .error (3, c9msg)) ∧
    1 ≤ 3 ∧ 3 ≤ c9body.length ∧
    rules.lineFails (c9body.getD (3 - 1) []) = true ∧
    (∀ j, j < 3 - 1 → rules.lineFails (c9body.getD j []) = false) :=
  C9_parse_error_line c9stored c9body 3 c9msg (by rfl)

/-! Helper lemmas for C10. -/

theorem upperByte_lowerByte (b : Nat) : upperByte (lowerByte b) = upperByte b := by
  unfold lowerByte upperByte
  split_ifs <;> omega

theorem isSpaceByte_lowerByte (b : Nat) : isSpaceByte (lowerByte b) = isSpaceByte b := by
  unfold lowerByte isSpaceByte
  split_ifs with h
  · have l : (b + 32 == 32 || b + 32 == 9 || b + 32 == 10 || b + 32 == 13) = false := by
      simp only [Bool.or_eq_false_iff, beq_eq_false_iff_ne, ne_eq]
      omega
    have r : (b == 32 || b == 9 || b == 10 || b == 13) = false := by
      simp only [Bool.or_eq_false_iff, beq_eq_false_iff_ne, ne_eq]
      omega
    rw [l, r]
  · rfl

theorem dropWhile_eq_self_of (l : GoStr) (h : ∀ b ∈ l, isSpaceByte b = false) :
    l.dropWhile isSpaceByte = l := by
  cases l with
  | nil => rfl
  | cons x xs =>
    rw [List.dropWhile_cons]
    rw [h x (by simp)]
    simp

theorem trimSpace_eq_self (l : GoStr) (h : ∀ b ∈ l, isSpaceByte b = false) :
    trimSpace l = l := by
  unfold trimSpace
  rw [dropWhile_eq_self_of l h]
  rw [dropWhile_eq_self_of l.reverse (fun b hb => h b (List.mem_reverse.mp hb))]
  exact List.reverse_reverse l

/-- Splitting the fixed C10 condition at the first ` then `. -/
theorem splitFirst_c10 (u : GoStr) :
    splitFirst (goStr " then ") (goStr "ch_bytes > 100 then " ++ u) =
      some (goStr "ch_bytes > 100", u) := by
  have h1 : goStr " then " = [32, 116, 104, 101, 110, 32] := by decide
  have h2 : goStr "ch_bytes > 100 then " =
      [99, 104, 95, 98, 121, 116, 101, 115, 32, 62, 32, 49, 48, 48, 32, 116, 104, 101, 110, 32] := by
    decide
  have h3 : goStr "ch_bytes > 100" = [99, 104, 95, 98, 121, 116, 101, 115, 32, 62, 32, 49, 48, 48] := by
    decide
  rw [h1, h2, h3]
  simp [splitFirst, listStartsWith]

/-- C10 (confirmed): rule parsing accepts any non-empty whitespace-free
token `t` after `then` as the profile — it is never validated against the
defined profile names, and is stored uppercased; when the stored profile
is not one of the four impairment profiles, `HandleConnection` dispatches
to the default clean passthrough. -/
theorem C10_unknown_profile_rule (t : GoStr) (hne : t ≠ [])
    (hns : ∀ b ∈ t, isSpaceByte b = false) :
    ((match rules.parseLine (goStr "when ch_bytes > 100 then " ++ t) with
      | .ok r => some r.Profile
      | .error _ => none) = some (t.map upperByte))
    ∧ (t.map upperByte ∉ [impair.ProfileAbortAfterCH, impair.ProfileMTUBlackhole,
        impair.ProfileLatencyJitter, impair.ProfileBandwidthLimit] →
        proxy.HandleConnection (t.map upperByte) = proxy.Strategy.cleanPassthrough) := by
  constructor
  · unfold rules.parseLine
    dsimp only
    have hmap : (goStr "when ch_bytes > 100 then " ++ t).map lowerByte
        = goStr "when ch_bytes > 100 then " ++ t.map lowerByte := by
      rw [List.map_append]
      congr 1
    rw [hmap]
    have hwhen : listStartsWith (goStr "when ")
        (goStr "when ch_bytes > 100 then " ++ t.map lowerByte) = true := by
      apply (listStartsWith_iff _ _).mpr
      refine ⟨goStr "ch_bytes > 100 then " ++ t.map lowerByte, ?_⟩
      rw [show goStr "when ch_bytes > 100 then " = goStr "when " ++ goStr "ch_bytes > 100 then "
        from by decide]
      rw [List.append_assoc]
    rw [if_neg (not_not_intro hwhen)]
    have hdrop : (goStr "when ch_bytes > 100 then " ++ t.map lowerByte).drop 5
        = goStr "ch_bytes > 100 then " ++ t.map lowerByte := by
      rw [List.drop_append_of_le_length (by decide)]
      congr 1
    rw [hdrop, splitFirst_c10]
    dsimp only
    have htrimc : trimSpace (goStr "ch_bytes > 100") = goStr "ch_bytes > 100" := by decide
    have htrim : trimSpace (t.map lowerByte) = t.map lowerByte := by
      apply trimSpace_eq_self
      intro b hb
      obtain ⟨a, ha, rfl⟩ := List.mem_map.mp hb
      rw [isSpaceByte_lowerByte]
      exact hns a ha
    rw [htrimc, htrim]
    have hprof : (t.map lowerByte).map upperByte = t.map upperByte := by
      rw [List.map_map]
      apply List.map_congr_left
      intro a _
      exact upperByte_lowerByte a
    rw [hprof]
    have hnnil : t.map upperByte ≠ [] := by
      simpa [List.map_eq_nil_iff] using hne
    rw [if_neg hnnil]
    rw [show fieldsSplit (goStr "ch_bytes > 100") = [goStr "ch_bytes", goStr ">", goStr "100"]
      from by decide]
    dsimp only
    unfold rules.parseCond
    rw [if_pos rfl]
    rw [show rules.parseInt (goStr "100") = .ok 100 from by rfl]
    dsimp only
    rw [if_pos rfl]
  · intro hnot
    simp only [List.mem_cons, List.not_mem_nil, or_false, not_or] at hnot
    obtain ⟨h1, h2, h3, h4⟩ := hnot
    unfold proxy.HandleConnection
    rw [if_neg h1, if_neg h2, if_neg h3, if_neg h4]

/-- The undefined profile token used in the C10 witness. -/
def c10tok : GoStr := goStr "FROBNICATE"

/-- C10 witness: `FROBNICATE` is accepted as a profile and dispatches to
clean passthrough. -/
theorem C10_unknown_profile_rule_witness :
    ((match rules.parseLine (goStr "when ch_bytes > 100 then " ++ c10tok) with
      | .ok r => some r.Profile
      | .error _ => none) = some (c10tok.map upperByte))
    ∧ (c10tok.map upperByte ∉ [impair.ProfileAbortAfterCH, impair.ProfileMTUBlackhole,
        impair.ProfileLatencyJitter, impair.ProfileBandwidthLimit] →
        proxy.HandleConnection (c10tok.map upperByte) = proxy.Strategy.cleanPassthrough) :=
  C10_unknown_profile_rule c10tok (by decide) (by decide)

/-- C1 (corrected, amended): the receipt's `RuleMatched` field is the
matched rule's profile when a rule matched; when no rule matched (or the
hello parse failed) it is the global profile name, not the empty string
— the accept loop stores `chosen`, which is initialised to the global
profile. -/
theorem C1_rule_matched (id : Int) (baseCfg : impair.Config) (set : rules.RuleSet)
    (clientAddr upstreamAddr : GoStr) (handlerErr : Option GoStr) :
    (∀ res : tlsinspect.Result, (rules.Match set res).2 = true →
      (pathlab.connectionReceipt id baseCfg set clientAddr upstreamAddr (some res) handlerErr).RuleMatched
        = (rules.Match set res).1) ∧
    (∀ res : tlsinspect.Result, (rules.Match set res).2 = false →
      (pathlab.connectionReceipt id baseCfg set clientAddr upstreamAddr (some res) handlerErr).RuleMatched
        = baseCfg.Profile) ∧
    ((pathlab.connectionReceipt id baseCfg set clientAddr upstreamAddr none handlerErr).RuleMatched
      = baseCfg.Profile) := by
  refine ⟨?_, ?_, rfl⟩
  · intro res h
    simp [pathlab.connectionReceipt, pathlab.chooseProfile, h]
  · intro res h
    simp [pathlab.connectionReceipt, pathlab.chooseProfile, h]

/-- C1 counterexample: with the empty ruleset no rule matches, yet the
receipt's `RuleMatched` equals the global profile `CLEAN`, which is not
the empty string — refuting the claim as stated. -/
theorem C1_rule_matched_cex :
    (rules.Match ⟨[]⟩ tlsinspect.zeroResult).2 = false ∧
    (pathlab.connectionReceipt 1 { impair.zeroConfig with Profile := impair.ProfileClean } ⟨[]⟩
        (goStr "client") (goStr "upstream") (some tlsinspect.zeroResult) none).RuleMatched
      = impair.ProfileClean ∧
    impair.ProfileClean ≠ ([] : GoStr) := by
  refine ⟨rfl, rfl, by decide⟩
